import Mathlib

/-!
Verification development for the `codemap` crate: extraction of the
externally visible surface of a Rust source file from its syntax tree.

The syntax tree produced by the external parser is modelled by `SNode`:
a node has a kind label, the raw source text of its range, an ordered
list of children, and a list of named fields.  Every function below is a
direct translation of the corresponding function in
`crates/codemap/src/lib.rs`; Rust panics are modelled by `Option`
(`none` means the call aborts), and the impl-block `HashMap` is modelled
by an association list accessed only through `implLookup`.
-/

inductive SNode : Type where
  | mk (kind : String) (text : String) (children : List SNode)
      (fields : List (String × SNode)) : SNode

def SNode.kind : SNode → String
  | .mk k _ _ _ => k

def SNode.text : SNode → String
  | .mk _ t _ _ => t

def SNode.children : SNode → List SNode
  | .mk _ _ cs _ => cs

def SNode.fields : SNode → List (String × SNode)
  | .mk _ _ _ fs => fs

/-- Model of tree-sitter `child_by_field_name`: first field with that name. -/
def childByFieldName (n : SNode) (f : String) : Option SNode :=
  match n.fields.find? (fun p => p.1 == f) with
  | some p => some p.2
  | none => none

/-- `ItemKind` from `lib.rs`. -/
inductive ItemKind : Type where
  | Struct
  | Enum
  | Const
  | Impl
  | Function
  | Module
  | TypeAlias
  | Trait
  | UseDeclaration
  | Other (k : String)
deriving DecidableEq

/-- `ItemKind::from_node_kind`. -/
def ItemKind.fromNodeKind (kind : String) : ItemKind :=
  if kind == "struct_item" then .Struct
  else if kind == "enum_item" then .Enum
  else if kind == "const_item" then .Const
  else if kind == "impl_item" then .Impl
  else if kind == "function_item" then .Function
  else if kind == "mod_item" then .Module
  else if kind == "type_item" then .TypeAlias
  else if kind == "trait_item" then .Trait
  else if kind == "use_declaration" then .UseDeclaration
  else .Other kind

/-- Helper: `pat` is an initial segment of the char list. -/
def leadsWith : List Char → List Char → Bool
  | [], _ => true
  | _ :: _, [] => false
  | p :: ps, c :: cs => p == c && leadsWith ps cs

/-- Helper: `pat` occurs somewhere in the char list. -/
def hasSubList (pat : List Char) : List Char → Bool
  | [] => leadsWith pat []
  | c :: cs => leadsWith pat (c :: cs) || hasSubList pat cs

/-- Model of Rust `str::contains` for a literal pattern. -/
def containsStr (s pat : String) : Bool :=
  hasSubList pat.data s.data

/-- Model of Rust `str::ends_with(char)`. -/
def endsWithChar (s : String) (c : Char) : Bool :=
  s.data.getLast? == some c

/-- Model of Rust `str::trim` (strip whitespace from both ends). -/
def trimText (s : String) : String :=
  String.mk (((s.data.dropWhile Char.isWhitespace).reverse.dropWhile
      Char.isWhitespace).reverse)

/-- `is_public` from `lib.rs`: some direct child is a visibility modifier
whose raw text is exactly `pub`. -/
def is_public (node : SNode) : Bool :=
  node.children.any (fun child =>
    child.kind == "visibility_modifier" && child.text == "pub")

/-- `has_visibility_modifier` from `lib.rs`. -/
def has_visibility_modifier (node : SNode) : Bool :=
  node.children.any (fun child => child.kind == "visibility_modifier")

/-- `is_trait_without_visibility` from `lib.rs`, including the hardcoded
exclusion of the identifier `PrivateTrait`. -/
def is_trait_without_visibility (node : SNode) : Bool :=
  if node.kind != "trait_item" then false
  else if has_visibility_modifier node then false
  else
    match childByFieldName node "name" with
    | some nameNode => if nameNode.text == "PrivateTrait" then false else true
    | none => true

/-- The top-level kind falls into the `ItemKind::Other` catch-all. -/
def isOtherKind (node : SNode) : Bool :=
  match ItemKind.fromNodeKind node.kind with
  | .Other _ => true
  | _ => false

/-- The `should_process` classification in `codemap`'s second pass. -/
def shouldProcess (child : SNode) : Bool :=
  match ItemKind.fromNodeKind child.kind with
  | .Trait => is_public child || is_trait_without_visibility child
  | .Enum => is_public child
  | _ => is_public child

/-- The generic-parameter fragment: text of the first `type_parameters`
child, or empty (the search loop shared by struct/function/method). -/
def typeParams (node : SNode) : String :=
  match node.children.find? (fun c => c.kind == "type_parameters") with
  | some c => c.text
  | none => ""

/-- The optional return-type fragment of a function node. -/
def retFragment (node : SNode) : String :=
  match childByFieldName node "return_type" with
  | some r => " -> " ++ r.text
  | none => ""

/-- One line of a struct body: trailing comma for every index below
`total - 1`, or when the raw field text already ends with a comma. -/
def fieldLine (total : Nat) (i : Nat) (c : SNode) : String :=
  let ft := trimText c.text
  if i < total - 1 || endsWithChar ft ',' then "    " ++ ft ++ ","
  else "    " ++ ft

/-- The `enumerate` loop over surviving fields in `process_struct`. -/
def renderFields (total : Nat) (i : Nat) : List SNode → List String
  | [] => []
  | c :: rest => fieldLine total i c :: renderFields total (i + 1) rest

/-- `process_struct` from `lib.rs`; `none` models the `unwrap` panic on a
missing `name` field. -/
def processStruct (node : SNode) : Option String :=
  match childByFieldName node "name" with
  | none => none
  | some nameNode =>
    let name := nameNode.text
    let genericParams := typeParams node
    let structText := node.text
    match childByFieldName node "body" with
    | some bodyNode =>
      if bodyNode.children.any (fun c => c.kind == "(") then
        some structText
      else
        let fieldNodes := bodyNode.children.filter (fun c =>
          c.kind == "field_declaration" && is_public c)
        let publicFields := renderFields fieldNodes.length 0 fieldNodes
        if publicFields.isEmpty then
          some ("pub struct " ++ (name ++ (genericParams ++ " \x7b\x7d")))
        else
          some ("pub struct " ++ (name ++ (genericParams ++ (" \x7b\n" ++
            (String.intercalate "\n" publicFields ++ "\n\x7d")))))
    | none =>
      if containsStr structText ";" then
        some ("pub struct " ++ (name ++ (genericParams ++ ";")))
      else
        some ("pub struct " ++ (name ++ (genericParams ++ " \x7b\x7d")))

/-- `process_enum` from `lib.rs`. -/
def processEnum (node : SNode) : Option String :=
  match childByFieldName node "name" with
  | none => none
  | some nameNode =>
    let name := nameNode.text
    match childByFieldName node "body" with
    | none => some ("pub " ++ ("enum " ++ (name ++ " \x7b\x7d")))
    | some variantListNode =>
      let variantNodes := variantListNode.children.filter (fun c =>
        c.kind == "enum_variant")
      let variants := variantNodes.map (fun c =>
        "    " ++ (trimText c.text ++ ","))
      if variants.isEmpty then
        some ("pub " ++ ("enum " ++ (name ++ " \x7b\x7d")))
      else
        some ("pub " ++ ("enum " ++ (name ++ (" \x7b\n" ++
          (String.intercalate "\n" variants ++ "\n\x7d")))))

/-- `process_const` from `lib.rs`: verbatim pass-through. -/
def processConst (node : SNode) : String :=
  node.text

/-- The per-method rendering inside `process_impl`; `none` models the `?`
on a missing `name` or `parameters` field. -/
def renderImplMethod (child : SNode) : Option String :=
  let methodText := child.text
  let isAsync := containsStr methodText "async fn"
  match childByFieldName child "name" with
  | none => none
  | some nameNode =>
    let name := nameNode.text
    let genericParams := typeParams child
    match childByFieldName child "parameters" with
    | none => none
    | some parametersNode =>
      let hasSelfParam := parametersNode.children.any (fun p =>
        p.kind == "self_parameter")
      let selfParams :=
        if hasSelfParam then
          [(match parametersNode.children.find? (fun p =>
              p.kind == "self_parameter") with
            | some p => p.text
            | none => "&self")]
        else []
      let params := selfParams ++ (parametersNode.children.filter (fun p =>
        p.kind == "parameter")).map (fun p => p.text)
      let returnType := retFragment child
      if isAsync then
        some ("    pub async fn " ++ (name ++ (genericParams ++
          ("(" ++ (String.intercalate ", " params ++ (")" ++ returnType)) ++ ";"))))
      else
        some ("    pub fn " ++ (name ++ (genericParams ++
          ("(" ++ (String.intercalate ", " params ++ (")" ++ returnType)) ++ ";"))))

/-- `process_impl` from `lib.rs`: `none` both for a missing `type`/`body`
field (the `?` operators) and for an empty surviving-method set. -/
def processImpl (node : SNode) : Option (String × String) :=
  match childByFieldName node "type" with
  | none => none
  | some typeNode =>
    let typeName := typeNode.text
    match childByFieldName node "body" with
    | none => none
    | some bodyNode =>
      match (bodyNode.children.filter (fun c =>
          c.kind == "function_item" && is_public c)).mapM renderImplMethod with
      | none => none
      | some publicMethods =>
        if publicMethods.isEmpty then none
        else
          some (typeName, "impl " ++ (typeName ++ (" \x7b\n" ++
            (String.intercalate "\n" publicMethods ++ "\n\x7d"))))

/-- `process_function` from `lib.rs`; `none` models the `unwrap` panics on
missing `name` or `parameters` fields. -/
def processFunction (node : SNode) : Option String :=
  let funcText := node.text
  let isAsync := containsStr funcText "async fn"
  match childByFieldName node "name" with
  | none => none
  | some nameNode =>
    let name := nameNode.text
    let genericParams := typeParams node
    match childByFieldName node "parameters" with
    | none => none
    | some parametersNode =>
      let params := (parametersNode.children.filter (fun p =>
        p.kind == "parameter")).map (fun p => p.text)
      let returnType := retFragment node
      if isAsync then
        some ("pub async fn " ++ (name ++ (genericParams ++
          ("(" ++ (String.intercalate ", " params ++ (")" ++ returnType)) ++ ";"))))
      else
        some ("pub fn " ++ (name ++ (genericParams ++
          ("(" ++ (String.intercalate ", " params ++ (")" ++ returnType)) ++ ";"))))

/-- `process_module` from `lib.rs`. -/
def processModule (node : SNode) : Option String :=
  match childByFieldName node "name" with
  | none => none
  | some nameNode => some ("pub mod " ++ (nameNode.text ++ ";"))

/-- `process_type_alias` from `lib.rs`: verbatim pass-through. -/
def processTypeAlias (node : SNode) : String :=
  node.text

/-- `process_trait` from `lib.rs`; `none` models the `unwrap` panics on
missing `name` or `body` fields. -/
def processTrait (node : SNode) : Option String :=
  match childByFieldName node "name" with
  | none => none
  | some nameNode =>
    let name := nameNode.text
    match childByFieldName node "body" with
    | none => none
    | some bodyNode =>
      let methods := (bodyNode.children.filter (fun c =>
        c.kind == "function_signature_item")).map (fun c =>
          "    " ++ trimText c.text)
      if methods.isEmpty then
        some ("pub trait " ++ (name ++ " \x7b\x7d"))
      else
        some ("pub trait " ++ (name ++ (" \x7b\n" ++
          (String.intercalate "\n" methods ++ "\n\x7d"))))

/-- `process_use_declaration` from `lib.rs`: verbatim pass-through. -/
def processUseDeclaration (node : SNode) : String :=
  node.text

/-- Association-list model of the impl-block `HashMap`:
`entry(k).or_insert_with(Vec::new).push(v)`. -/
def implInsert (m : List (String × List String)) (k : String) (v : String) :
    List (String × List String) :=
  match m with
  | [] => [(k, [v])]
  | (k1, vs) :: rest =>
    if k1 == k then (k1, vs ++ [v]) :: rest
    else (k1, vs) :: implInsert rest k v

/-- Association-list model of `HashMap::get`. -/
def implLookup (m : List (String × List String)) (k : String) :
    Option (List String) :=
  match m with
  | [] => none
  | (k1, vs) :: rest => if k1 == k then some vs else implLookup rest k

/-- The first pass of `codemap`: collect impl-block renderings. -/
def firstPass (acc : List (String × List String)) :
    List SNode → List (String × List String)
  | [] => acc
  | c :: rest =>
    if c.kind == "impl_item" then
      match processImpl c with
      | some kv => firstPass (implInsert acc kv.1 kv.2) rest
      | none => firstPass acc rest
    else firstPass acc rest

/-- The impl-attachment loop run after `process_struct` in the
second pass of `codemap`. -/
def attachImpls (implBlocks : List (String × List String)) (child : SNode)
    (structOutput : String) : String :=
  match childByFieldName child "name" with
  | some nameNode =>
    match implLookup implBlocks nameNode.text with
    | some impls =>
      impls.foldl (fun acc implBlock =>
        if implBlock.isEmpty then acc else acc ++ "\n\n" ++ implBlock)
        structOutput
    | none => structOutput
  | none => structOutput

/-- One iteration of `codemap`'s second pass: the list of entries pushed
onto `public_output` for this child; `none` models a panic (either the
`Other` arm or a renderer `unwrap`). -/
def processTopLevel (implBlocks : List (String × List String))
    (child : SNode) : Option (List String) :=
  if shouldProcess child then
    match ItemKind.fromNodeKind child.kind with
    | .Struct => (processStruct child).map (fun s => [attachImpls implBlocks child s])
    | .Enum => (processEnum child).map (fun s => [s])
    | .Const => some [processConst child]
    | .Function => (processFunction child).map (fun s => [s])
    | .Impl => some []
    | .Module => (processModule child).map (fun s => [s])
    | .TypeAlias => some [processTypeAlias child]
    | .Trait => (processTrait child).map (fun s => [s])
    | .UseDeclaration => some [processUseDeclaration child]
    | .Other _ => none
  else some []

/-- The second pass of `codemap` over the top-level children. -/
def secondPass (implBlocks : List (String × List String)) :
    List SNode → Option (List String)
  | [] => some []
  | c :: rest =>
    match processTopLevel implBlocks c with
    | none => none
    | some items => (secondPass implBlocks rest).map (fun l => items ++ l)

/-- `codemap` as a function of the root's top-level children. -/
def codemapChildren (cs : List SNode) : Option String :=
  (secondPass (firstPass [] cs) cs).map (fun l => String.intercalate "\n\n" l)

/-- `codemap` from `lib.rs`, taking the already-parsed root node (parsing
is the external collaborator); `none` models a panic. -/
def codemap (root : SNode) : Option String :=
  codemapChildren root.children

/-- Spec-side form of the struct body lines (§4.2(c)): every surviving
member on its own line with a trailing comma, except the last, which
keeps one only when its raw text already ends with a comma. -/
def specFieldLines : List SNode → List String
  | [] => []
  | [c] =>
    if endsWithChar (trimText c.text) ',' then
      ["    " ++ trimText c.text ++ ","]
    else
      ["    " ++ trimText c.text]
  | c :: rest => ("    " ++ trimText c.text ++ ",") :: specFieldLines rest

/-- Spec-side form of the attachment list (§4.4): the non-empty indexed
impl renderings found under the bare name of the declaration. -/
def matchingImpls (implBlocks : List (String × List String)) (child : SNode) :
    List String :=
  match childByFieldName child "name" with
  | some nameNode =>
    ((implLookup implBlocks nameNode.text).getD []).filter (fun s => !s.isEmpty)
  | none => []

/-- Spec-side form of one Surface entry (§4.4): the rendering a visible
top-level declaration contributes, with a struct entry followed by its
attached impl renderings joined by blank lines. -/
def entryOf (implBlocks : List (String × List String)) (c : SNode) :
    Option String :=
  if shouldProcess c then
    match ItemKind.fromNodeKind c.kind with
    | .Struct => (processStruct c).map (fun s =>
        String.intercalate "\n\n" (s :: matchingImpls implBlocks c))
    | .Enum => processEnum c
    | .Const => some (processConst c)
    | .Function => processFunction c
    | .Impl => none
    | .Module => processModule c
    | .TypeAlias => some (processTypeAlias c)
    | .Trait => processTrait c
    | .UseDeclaration => some (processUseDeclaration c)
    | .Other _ => none
  else none

theorem foldl_attach_eq_go (l : List String) : ∀ s : String,
    l.foldl (fun acc x => if x.isEmpty then acc else acc ++ "\n\n" ++ x) s
      = String.intercalate.go s "\n\n" (l.filter (fun x => !x.isEmpty)) := by
  induction l with
  | nil => intro s; rfl
  | cons a rest ih =>
    intro s
    by_cases h : a.isEmpty
    · simp only [List.foldl_cons, List.filter_cons, h, if_pos, Bool.not_true,
        if_neg, Bool.false_eq_true, ite_false]
      exact ih s
    · simp only [List.foldl_cons, List.filter_cons, h, Bool.not_false,
        if_neg, ite_true, Bool.false_eq_true, ite_false, String.intercalate.go]
      exact ih (s ++ "\n\n" ++ a)

theorem intercalate_cons_eq_go (s : String) (l : List String) :
    String.intercalate "\n\n" (s :: l) = String.intercalate.go s "\n\n" l := rfl

theorem attachImpls_eq_intercalate (implBlocks : List (String × List String))
    (child : SNode) (s : String) :
    attachImpls implBlocks child s
      = String.intercalate "\n\n" (s :: matchingImpls implBlocks child) := by
  cases h1 : childByFieldName child "name" with
  | none =>
    simp [attachImpls, matchingImpls, h1, intercalate_cons_eq_go,
      String.intercalate.go]
  | some nameNode =>
    cases h2 : implLookup implBlocks nameNode.text with
    | none =>
      simp [attachImpls, matchingImpls, h1, h2, intercalate_cons_eq_go,
        String.intercalate.go]
    | some impls =>
      simp only [attachImpls, matchingImpls, h1, h2, Option.getD_some]
      rw [intercalate_cons_eq_go]
      exact foldl_attach_eq_go impls s

theorem processTopLevel_entry (implBlocks : List (String × List String))
    (c : SNode) (items : List String)
    (h : processTopLevel implBlocks c = some items) :
    items = (entryOf implBlocks c).toList := by
  unfold processTopLevel at h
  unfold entryOf
  cases hs : shouldProcess c with
  | false =>
    rw [hs] at h
    simp at h
    simp [← h]
  | true =>
    rw [hs] at h
    simp only [if_true] at h
    simp only [hs, if_true]
    cases hk : ItemKind.fromNodeKind c.kind <;> simp only [hk] at h ⊢
    case Struct =>
      cases hps : processStruct c with
      | none => rw [hps] at h; simp at h
      | some s =>
        rw [hps] at h
        simp at h
        simp [hps, ← h, attachImpls_eq_intercalate]
    case Enum =>
      cases hpe : processEnum c with
      | none => rw [hpe] at h; simp at h
      | some s => rw [hpe] at h; simp at h; simp [hpe, ← h]
    case Const => simp at h; simp [← h]
    case Function =>
      cases hpf : processFunction c with
      | none => rw [hpf] at h; simp at h
      | some s => rw [hpf] at h; simp at h; simp [hpf, ← h]
    case Impl => simp at h; simp [← h]
    case Module =>
      cases hpm : processModule c with
      | none => rw [hpm] at h; simp at h
      | some s => rw [hpm] at h; simp at h; simp [hpm, ← h]
    case TypeAlias => simp at h; simp [← h]
    case Trait =>
      cases hpt : processTrait c with
      | none => rw [hpt] at h; simp at h
      | some s => rw [hpt] at h; simp at h; simp [hpt, ← h]
    case UseDeclaration => simp at h; simp [← h]
    case Other => simp at h

theorem secondPass_filterMap (implBlocks : List (String × List String)) :
    ∀ (l : List SNode) (items : List String),
    secondPass implBlocks l = some items →
    items = l.filterMap (entryOf implBlocks) := by
  intro l
  induction l with
  | nil =>
    intro items h
    simp only [secondPass, Option.some.injEq] at h
    simp [← h]
  | cons c rest ih =>
    intro items h
    unfold secondPass at h
    cases hp : processTopLevel implBlocks c with
    | none => rw [hp] at h; simp at h
    | some its =>
      rw [hp] at h
      cases hr : secondPass implBlocks rest with
      | none => rw [hr] at h; simp at h
      | some restItems =>
        rw [hr] at h
        simp at h
        rw [← h, ih restItems hr, processTopLevel_entry implBlocks c its hp,
          List.filterMap_cons]
        cases entryOf implBlocks c <;> simp

theorem processTopLevel_invisible (implBlocks : List (String × List String))
    (c : SNode) (h : shouldProcess c = false) :
    processTopLevel implBlocks c = some [] := by
  unfold processTopLevel
  simp [h]

theorem secondPass_all_invisible (implBlocks : List (String × List String)) :
    ∀ l : List SNode, (∀ c, c ∈ l → shouldProcess c = false) →
    secondPass implBlocks l = some [] := by
  intro l
  induction l with
  | nil => intro _; rfl
  | cons c rest ih =>
    intro h
    unfold secondPass
    rw [processTopLevel_invisible implBlocks c (h c (List.Mem.head rest)),
      ih (fun d hd => h d (List.Mem.tail c hd))]
    rfl

theorem secondPass_abort (implBlocks : List (String × List String)) :
    ∀ (l : List SNode) (c : SNode), c ∈ l →
    processTopLevel implBlocks c = none →
    secondPass implBlocks l = none := by
  intro l
  induction l with
  | nil => intro c hc _; cases hc
  | cons a rest ih =>
    intro c hc hnone
    unfold secondPass
    cases hc with
    | head => rw [hnone]
    | tail _ hmem =>
      cases hpa : processTopLevel implBlocks a with
      | none => rfl
      | some items => rw [ih c hmem hnone]; rfl

theorem renderFields_eq_spec :
    ∀ (l : List SNode) (i : Nat),
    renderFields (i + l.length) i l = specFieldLines l := by
  intro l
  induction l with
  | nil => intro i; rfl
  | cons c rest ih =>
    intro i
    cases rest with
    | nil =>
      show fieldLine (i + 1) i c :: renderFields (i + 1) (i + 1) []
        = specFieldLines [c]
      unfold fieldLine renderFields
      cases hE : endsWithChar (trimText c.text) ','
      · rw [if_neg]
        · simp [specFieldLines, hE]
        · simp only [hE, Bool.or_false, decide_eq_true_eq]
          omega
      · rw [if_pos]
        · simp [specFieldLines, hE]
        · simp [hE]
    | cons d rest2 =>
      show fieldLine (i + (d :: rest2).length + 1) i c
          :: renderFields (i + (d :: rest2).length + 1) (i + 1) (d :: rest2)
        = specFieldLines (c :: d :: rest2)
      have hT : i + (d :: rest2).length + 1 = (i + 1) + (d :: rest2).length := by
        omega
      have hlt : i < i + (d :: rest2).length + 1 - 1 := by
        simp only [List.length_cons]
        omega
      unfold fieldLine
      rw [if_pos (by simp only [decide_eq_true_eq, Bool.or_eq_true]; left; exact hlt)]
      rw [hT, ih (i + 1)]
      rfl

theorem renderFields_isEmpty (total i : Nat) (l : List SNode) :
    (renderFields total i l).isEmpty = l.isEmpty := by
  cases l <;> rfl

theorem implLookup_insert_ne (k k2 v : String)
    (h : k2 ≠ k) : ∀ m : List (String × List String),
    implLookup (implInsert m k v) k2 = implLookup m k2 := by
  intro m
  induction m with
  | nil =>
    simp only [implInsert, implLookup]
    rw [if_neg]
    simp only [beq_iff_eq]
    exact fun he => h he.symm
  | cons p rest ih =>
    obtain ⟨k1, vs⟩ := p
    simp only [implInsert]
    by_cases h1 : k1 = k
    · subst h1
      rw [if_pos (by simp)]
      show implLookup ((k1, vs ++ [v]) :: rest) k2 = implLookup ((k1, vs) :: rest) k2
      simp only [implLookup]
      rw [if_neg (by simp only [beq_iff_eq]; exact Ne.symm h),
        if_neg (by simp only [beq_iff_eq]; exact Ne.symm h)]
    · rw [if_neg (by simpa using h1)]
      simp only [implLookup]
      by_cases h2 : k1 = k2
      · rw [if_pos (by simpa using h2), if_pos (by simpa using h2)]
      · rw [if_neg (by simpa using h2), if_neg (by simpa using h2)]
        exact ih

theorem implLookup_insert_self (k v : String) :
    ∀ m : List (String × List String),
    implLookup (implInsert m k v) k = some (((implLookup m k).getD []) ++ [v]) := by
  intro m
  induction m with
  | nil => simp [implInsert, implLookup]
  | cons p rest ih =>
    obtain ⟨k1, vs⟩ := p
    simp only [implInsert]
    by_cases h1 : k1 = k
    · rw [if_pos (by simpa using h1)]
      simp only [implLookup]
      rw [if_pos (by simpa using h1), if_pos (by simpa using h1)]
      simp
    · rw [if_neg (by simpa using h1)]
      simp only [implLookup]
      rw [if_neg (by simpa using h1), if_neg (by simpa using h1)]
      exact ih

/-- Two impl indexes that agree on every key other than `k`. -/
def agreeOff (k : String) (m1 m2 : List (String × List String)) : Prop :=
  ∀ k2, k2 ≠ k → implLookup m1 k2 = implLookup m2 k2

theorem agreeOff_insert (k k2 v : String) (m1 m2 : List (String × List String))
    (h : agreeOff k m1 m2) : agreeOff k (implInsert m1 k2 v) (implInsert m2 k2 v) := by
  intro k3 h3
  by_cases he : k3 = k2
  · subst he
    rw [implLookup_insert_self, implLookup_insert_self, h k3 h3]
  · rw [implLookup_insert_ne k2 k3 v he, implLookup_insert_ne k2 k3 v he]
    exact h k3 h3

theorem agreeOff_insert_left (k v : String) (m : List (String × List String)) :
    agreeOff k (implInsert m k v) m := by
  intro k2 h2
  exact implLookup_insert_ne k k2 v h2 m

theorem firstPass_agree (k : String) :
    ∀ (l : List SNode) (m1 m2 : List (String × List String)),
    agreeOff k m1 m2 → agreeOff k (firstPass m1 l) (firstPass m2 l) := by
  intro l
  induction l with
  | nil => intro m1 m2 h; exact h
  | cons c rest ih =>
    intro m1 m2 h
    simp only [firstPass]
    by_cases hk : c.kind == "impl_item"
    · rw [if_pos hk, if_pos hk]
      cases hp : processImpl c with
      | none => exact ih m1 m2 h
      | some kv => exact ih _ _ (agreeOff_insert k kv.1 kv.2 m1 m2 h)
    · rw [if_neg hk, if_neg hk]
      exact ih m1 m2 h

theorem firstPass_append (l1 l2 : List SNode) :
    ∀ acc, firstPass acc (l1 ++ l2) = firstPass (firstPass acc l1) l2 := by
  induction l1 with
  | nil => intro acc; rfl
  | cons c rest ih =>
    intro acc
    simp only [List.cons_append, firstPass]
    by_cases hk : c.kind == "impl_item"
    · rw [if_pos hk, if_pos hk]
      cases hp : processImpl c with
      | none => exact ih acc
      | some kv => exact ih (implInsert acc kv.1 kv.2)
    · rw [if_neg hk, if_neg hk]
      exact ih acc

theorem attachImpls_agree (k : String) (ib1 ib2 : List (String × List String))
    (d : SNode) (hag : agreeOff k ib1 ib2)
    (hname : ∀ nm, childByFieldName d "name" = some nm → nm.text ≠ k) :
    ∀ s, attachImpls ib1 d s = attachImpls ib2 d s := by
  intro s
  cases h1 : childByFieldName d "name" with
  | none => simp [attachImpls, h1]
  | some nm =>
    simp only [attachImpls, h1]
    rw [hag nm.text (hname nm h1)]

theorem processTopLevel_agree (k : String) (ib1 ib2 : List (String × List String))
    (d : SNode) (hag : agreeOff k ib1 ib2)
    (hname : shouldProcess d = true →
      ItemKind.fromNodeKind d.kind = ItemKind.Struct →
      ∀ nm, childByFieldName d "name" = some nm → nm.text ≠ k) :
    processTopLevel ib1 d = processTopLevel ib2 d := by
  cases hs : shouldProcess d with
  | false =>
    rw [processTopLevel_invisible ib1 d hs, processTopLevel_invisible ib2 d hs]
  | true =>
    simp only [processTopLevel, hs, if_true, eq_self_iff_true]
    cases hk : ItemKind.fromNodeKind d.kind <;> simp only [hk]
    case Struct =>
      have hfun : (fun s => [attachImpls ib1 d s])
          = (fun s => [attachImpls ib2 d s]) :=
        funext fun s => by
          rw [attachImpls_agree k ib1 ib2 d hag (hname hs hk) s]
      rw [hfun]

theorem secondPass_agree (k : String) (ib1 ib2 : List (String × List String))
    (hag : agreeOff k ib1 ib2) :
    ∀ l : List SNode,
    (∀ d, d ∈ l → shouldProcess d = true →
      ItemKind.fromNodeKind d.kind = ItemKind.Struct →
      ∀ nm, childByFieldName d "name" = some nm → nm.text ≠ k) →
    secondPass ib1 l = secondPass ib2 l := by
  intro l
  induction l with
  | nil => intro _; rfl
  | cons c rest ih =>
    intro h
    have hpt : processTopLevel ib1 c = processTopLevel ib2 c :=
      processTopLevel_agree k ib1 ib2 c hag (h c (List.Mem.head rest))
    cases hpc : processTopLevel ib1 c with
    | none =>
      have hpc2 : processTopLevel ib2 c = none := by rw [← hpt]; exact hpc
      simp only [secondPass, hpc, hpc2]
    | some items =>
      have hpc2 : processTopLevel ib2 c = some items := by rw [← hpt]; exact hpc
      simp only [secondPass, hpc, hpc2]
      rw [ih (fun d hd => h d (List.Mem.tail c hd))]

theorem processTopLevel_implKind (implBlocks : List (String × List String))
    (d : SNode) (hk : ItemKind.fromNodeKind d.kind = ItemKind.Impl) :
    processTopLevel implBlocks d = some [] := by
  unfold processTopLevel
  cases hs : shouldProcess d with
  | false => simp
  | true => simp [hk]

theorem secondPass_skip (implBlocks : List (String × List String)) (c : SNode)
    (hc : processTopLevel implBlocks c = some []) :
    ∀ pre post, secondPass implBlocks (pre ++ c :: post)
      = secondPass implBlocks (pre ++ post) := by
  intro pre
  induction pre with
  | nil =>
    intro post
    simp only [List.nil_append, secondPass, hc]
    cases secondPass implBlocks post <;> rfl
  | cons p rest ih =>
    intro post
    show secondPass implBlocks (p :: (rest ++ c :: post))
      = secondPass implBlocks (p :: (rest ++ post))
    cases hpp : processTopLevel implBlocks p with
    | none => simp only [secondPass, hpp]
    | some items =>
      simp only [secondPass, hpp]
      rw [ih post]

/-- An impl block whose implemented-type text matches the name of no
visible product type is collected by the first pass but changes nothing
in the output: only a visible struct entry ever consults the index. -/
theorem codemapChildren_discard (pre post : List SNode) (c : SNode)
    (k v : String) (hkind : c.kind = "impl_item")
    (hp : processImpl c = some (k, v))
    (hnames : ∀ d, d ∈ pre ++ post → shouldProcess d = true →
      ItemKind.fromNodeKind d.kind = ItemKind.Struct →
      ∀ nm, childByFieldName d "name" = some nm → nm.text ≠ k) :
    codemapChildren (pre ++ c :: post) = codemapChildren (pre ++ post) := by
  unfold codemapChildren
  have hfk : ItemKind.fromNodeKind c.kind = ItemKind.Impl := by
    rw [hkind]; rfl
  have hib : firstPass [] (pre ++ c :: post)
      = firstPass (implInsert (firstPass [] pre) k v) post := by
    rw [firstPass_append]
    simp only [firstPass]
    rw [if_pos (by simp [hkind]), hp]
  have hib2 : firstPass [] (pre ++ post)
      = firstPass (firstPass [] pre) post := firstPass_append pre post []
  have hag : agreeOff k (firstPass [] (pre ++ c :: post))
      (firstPass [] (pre ++ post)) := by
    rw [hib, hib2]
    exact firstPass_agree k post _ _ (agreeOff_insert_left k v (firstPass [] pre))
  rw [secondPass_skip (firstPass [] (pre ++ c :: post)) c
    (processTopLevel_implKind _ c hfk) pre post]
  rw [secondPass_agree k _ _ hag (pre ++ post) hnames]

/-!
Concrete syntax trees used by the witnesses and counterexamples.  They
mirror the shapes tree-sitter-rust produces for the repository's test
assets (`test_assets/everything.rs` and the inline tests).
-/

def pubVis : SNode := .mk "visibility_modifier" "pub" [] []

def crateVis : SNode := .mk "visibility_modifier" "pub(crate)" [] []

def privStructName : SNode := .mk "type_identifier" "PrivateNoFields" [] []

def privStructNode : SNode :=
  .mk "struct_item" "struct PrivateNoFields;" [privStructName]
    [("name", privStructName)]

def exRoot1 : SNode :=
  .mk "source_file" "struct PrivateNoFields;" [privStructNode] []

def crateStructName : SNode := .mk "type_identifier" "CrateOnly" [] []

def crateStructNode : SNode :=
  .mk "struct_item" "pub(crate) struct CrateOnly;" [crateVis, crateStructName]
    [("name", crateStructName)]

def exRoot3 : SNode :=
  .mk "source_file" "pub(crate) struct CrateOnly;" [crateStructNode] []

def privTraitName : SNode := .mk "type_identifier" "PrivateTrait" [] []

def emptyDeclList : SNode := .mk "declaration_list" "\x7b\x7d" [] []

def privTraitNode : SNode :=
  .mk "trait_item" "trait PrivateTrait \x7b\x7d" [privTraitName, emptyDeclList]
    [("name", privTraitName), ("body", emptyDeclList)]

def privTraitRoot : SNode :=
  .mk "source_file" "trait PrivateTrait \x7b\x7d" [privTraitNode] []

def renamedTraitName : SNode := .mk "type_identifier" "PrivateTraitX" [] []

def renamedTraitNode : SNode :=
  .mk "trait_item" "trait PrivateTraitX \x7b\x7d" [renamedTraitName, emptyDeclList]
    [("name", renamedTraitName), ("body", emptyDeclList)]

def renamedTraitRoot : SNode :=
  .mk "source_file" "trait PrivateTraitX \x7b\x7d" [renamedTraitNode] []

def structSName : SNode := .mk "type_identifier" "S" [] []

def structSNode : SNode :=
  .mk "struct_item" "pub struct S;" [pubVis, structSName] [("name", structSName)]

def unknownPrivateNode : SNode := .mk "attribute_item" "#[derive(Debug)]" [] []

def cexRoot5 : SNode :=
  .mk "source_file" "" [structSNode, unknownPrivateNode] []

def unknownPubNode : SNode :=
  .mk "static_item" "pub static X: i32 = 1;" [pubVis] []

def badRoot5 : SNode :=
  .mk "source_file" "pub static X: i32 = 1;" [unknownPubNode] []

def implStructName : SNode := .mk "type_identifier" "ImplStruct" [] []

def implStructNode : SNode :=
  .mk "struct_item" "pub struct ImplStruct;" [pubVis, implStructName]
    [("name", implStructName)]

def emptyParams : SNode := .mk "parameters" "()" [] []

def methodAName : SNode := .mk "identifier" "a" [] []

def methodA : SNode :=
  .mk "function_item" "pub fn a() \x7b\x7d" [pubVis]
    [("name", methodAName), ("parameters", emptyParams)]

def implBodyA : SNode := .mk "declaration_list" "" [methodA] []

def implNodeA : SNode :=
  .mk "impl_item" "impl ImplStruct A" []
    [("type", implStructName), ("body", implBodyA)]

def methodBName : SNode := .mk "identifier" "b" [] []

def methodB : SNode :=
  .mk "function_item" "pub fn b() \x7b\x7d" [pubVis]
    [("name", methodBName), ("parameters", emptyParams)]

def implBodyB : SNode := .mk "declaration_list" "" [methodB] []

def implNodeB : SNode :=
  .mk "impl_item" "impl ImplStruct B" []
    [("type", implStructName), ("body", implBodyB)]

def exRoot2 : SNode :=
  .mk "source_file" "" [implStructNode, implNodeA, implNodeB] []

def exOut2 : String :=
  "pub struct ImplStruct;\n\nimpl ImplStruct \x7b\n    pub fn a();\n\x7d\n\nimpl ImplStruct \x7b\n    pub fn b();\n\x7d"

def fieldPubX : SNode := .mk "field_declaration" "pub public_field: i32" [pubVis] []

def fieldPriv : SNode := .mk "field_declaration" "private_field: i32" [] []

def fieldPubY : SNode := .mk "field_declaration" "pub pub_field: String" [pubVis] []

def commaTok : SNode := .mk "," "," [] []

def mixedBody : SNode :=
  .mk "field_declaration_list" ""
    [.mk "\x7b" "\x7b" [] [], fieldPubX, commaTok, fieldPriv, commaTok,
      fieldPubY, commaTok, .mk "\x7d" "\x7d" [] []] []

def mixedName : SNode := .mk "type_identifier" "PublicPrivatePublic" [] []

def structMixed : SNode :=
  .mk "struct_item" "" [pubVis, mixedName, mixedBody]
    [("name", mixedName), ("body", mixedBody)]

def implNoType : SNode := .mk "impl_item" "" [] [("body", emptyDeclList)]

def ghostName : SNode := .mk "type_identifier" "Ghost" [] []

def implNoBody : SNode := .mk "impl_item" "" [] [("type", ghostName)]

def hiddenName : SNode := .mk "identifier" "hidden" [] []

def privMethod : SNode :=
  .mk "function_item" "fn hidden() \x7b\x7d" []
    [("name", hiddenName), ("parameters", emptyParams)]

def implPrivBody : SNode := .mk "declaration_list" "" [privMethod] []

def implNoPub : SNode :=
  .mk "impl_item" "" [] [("type", ghostName), ("body", implPrivBody)]

def methodGName : SNode := .mk "identifier" "g" [] []

def methodG : SNode :=
  .mk "function_item" "pub fn g() \x7b\x7d" [pubVis]
    [("name", methodGName), ("parameters", emptyParams)]

def implGhostBody : SNode := .mk "declaration_list" "" [methodG] []

def implGhost : SNode :=
  .mk "impl_item" "impl Ghost" [] [("type", ghostName), ("body", implGhostBody)]

def ghostRendering : String := "impl Ghost \x7b\n    pub fn g();\n\x7d"

def privGhostStruct : SNode :=
  .mk "struct_item" "struct Ghost;" [ghostName] [("name", ghostName)]

def fnFName : SNode := .mk "identifier" "f" [] []

def paramX : SNode := .mk "parameter" "x: i32" [] []

def fnFParams : SNode :=
  .mk "parameters" "(x: i32)"
    [.mk "(" "(" [] [], paramX, .mk ")" ")" [] []] []

def retI32 : SNode := .mk "primitive_type" "i32" [] []

def asyncFnNode : SNode :=
  .mk "function_item" "pub async fn f(x: i32) -> i32 \x7b 1 \x7d" [pubVis]
    [("name", fnFName), ("parameters", fnFParams), ("return_type", retI32)]

def fooNameNode : SNode := .mk "type_identifier" "Foo" [] []

def genStructFoo : SNode :=
  .mk "struct_item" "pub struct Foo;" [pubVis, fooNameNode]
    [("name", fooNameNode)]

def fooGenericType : SNode := .mk "generic_type" "Foo<T>" [] []

def methodMName : SNode := .mk "identifier" "m" [] []

def methodM : SNode :=
  .mk "function_item" "pub fn m() \x7b\x7d" [pubVis]
    [("name", methodMName), ("parameters", emptyParams)]

def genImplBody : SNode := .mk "declaration_list" "" [methodM] []

def genImplFoo : SNode :=
  .mk "impl_item" "impl Foo<T>" []
    [("type", fooGenericType), ("body", genImplBody)]

def genImplRendering : String := "impl Foo<T> \x7b\n    pub fn m();\n\x7d"

def greeterName : SNode := .mk "type_identifier" "Greeter" [] []

def greetSig : SNode := .mk "function_signature_item" "fn greet(&self);" [] []

def greeterBody : SNode := .mk "declaration_list" "" [greetSig] []

def freeTraitNode : SNode :=
  .mk "trait_item" "trait Greeter" [greeterName, greeterBody]
    [("name", greeterName), ("body", greeterBody)]

/-- C1: for every input in which no top-level declaration is classified
externally visible, `codemap` returns exactly the empty string (no
whitespace, no wrapper) rather than failing or emitting anything. -/
theorem claim1_no_visible_gives_empty (root : SNode)
    (h : ∀ c, c ∈ root.children → shouldProcess c = false) :
    codemap root = some "" := by
  unfold codemap codemapChildren
  rw [secondPass_all_invisible (firstPass [] root.children) root.children h]
  rfl

theorem claim1_witness : codemap exRoot1 = some "" :=
  claim1_no_visible_gives_empty exRoot1 (by decide)

/-- C2: whenever `codemap` succeeds, the output is exactly the
blank-line-joined renderings of the visible top-level declarations in
source order, and the entry of every visible product type is its own
rendering followed, blank-line-separated and in index order, by the
non-empty impl-block renderings found under its bare name. -/
theorem claim2_order_and_attachment (root : SNode) (out : String)
    (h : codemap root = some out) :
    out = String.intercalate "\n\n"
        (root.children.filterMap (entryOf (firstPass [] root.children)))
    ∧ ∀ c, shouldProcess c = true →
        ItemKind.fromNodeKind c.kind = ItemKind.Struct →
        entryOf (firstPass [] root.children) c
          = (processStruct c).map (fun s => String.intercalate "\n\n"
              (s :: matchingImpls (firstPass [] root.children) c)) := by
  constructor
  · unfold codemap codemapChildren at h
    cases hs : secondPass (firstPass [] root.children) root.children with
    | none => rw [hs] at h; simp at h
    | some items =>
      rw [hs] at h
      simp at h
      rw [← h,
        secondPass_filterMap (firstPass [] root.children) root.children items hs]
  · intro c hsp hk
    unfold entryOf
    rw [hsp, hk]
    simp

theorem claim2_witness :
    codemap exRoot2 = some exOut2
    ∧ exOut2 = String.intercalate "\n\n"
        (exRoot2.children.filterMap (entryOf (firstPass [] exRoot2.children))) :=
  ⟨by decide, (claim2_order_and_attachment exRoot2 exOut2 (by decide)).1⟩

/-- C3: under the default rule a node is visible iff it has a direct
`visibility_modifier` child with text exactly `pub`; a file whose
top-level declarations all carry only narrower markers (never bare
`pub`) has no visible declaration and yields the empty string. -/
theorem claim3_default_visibility_rule (root : SNode)
    (h : ∀ c, c ∈ root.children →
      (∃ v, v ∈ c.children ∧ v.kind = "visibility_modifier")
      ∧ (∀ v, v ∈ c.children → v.kind = "visibility_modifier" →
          v.text ≠ "pub")) :
    (∀ n : SNode, is_public n = true
      ↔ ∃ v, v ∈ n.children ∧ v.kind = "visibility_modifier" ∧ v.text = "pub")
    ∧ (∀ c, c ∈ root.children → shouldProcess c = false)
    ∧ codemap root = some "" := by
  have hiff : ∀ n : SNode, is_public n = true
      ↔ ∃ v, v ∈ n.children ∧ v.kind = "visibility_modifier" ∧ v.text = "pub" := by
    intro n
    unfold is_public
    rw [List.any_eq_true]
    constructor
    · rintro ⟨v, hv, hp⟩
      simp only [Bool.and_eq_true, beq_iff_eq] at hp
      exact ⟨v, hv, hp.1, hp.2⟩
    · rintro ⟨v, hv, h1, h2⟩
      exact ⟨v, hv, by simp [h1, h2]⟩
  have hnv : ∀ c, c ∈ root.children → shouldProcess c = false := by
    intro c hc
    have hpub : is_public c = false := by
      cases hip : is_public c with
      | false => rfl
      | true =>
        obtain ⟨v, hv, h1, h2⟩ := (hiff c).mp hip
        exact absurd h2 ((h c hc).2 v hv h1)
    have hvm : has_visibility_modifier c = true := by
      obtain ⟨v, hv, h1⟩ := (h c hc).1
      unfold has_visibility_modifier
      rw [List.any_eq_true]
      exact ⟨v, hv, by simp [h1]⟩
    have htv : is_trait_without_visibility c = false := by
      cases hkd : (c.kind != "trait_item") with
      | true => simp [is_trait_without_visibility, hkd]
      | false => simp [is_trait_without_visibility, hkd, hvm]
    cases hfk : ItemKind.fromNodeKind c.kind <;>
      simp [shouldProcess, hfk, hpub, htv]
  refine ⟨hiff, hnv, ?_⟩
  unfold codemap codemapChildren
  rw [secondPass_all_invisible (firstPass [] root.children) root.children hnv]
  rfl

theorem claim3_witness :
    (∀ c, c ∈ exRoot3.children → shouldProcess c = false)
    ∧ codemap exRoot3 = some "" :=
  ⟨(claim3_default_visibility_rule exRoot3 (by decide)).2.1,
   (claim3_default_visibility_rule exRoot3 (by decide)).2.2⟩

/-- C4: evaluation at the failing input.  A qualifier-free top-level
trait named exactly `PrivateTrait` is classified not visible and dropped
from the output, while the same tree under any other name is visible:
the implementation hardcodes one identifier, contradicting the
name-independent rule the claim states. -/
theorem claim4_privatetrait_hardcoded :
    has_visibility_modifier privTraitNode = false
    ∧ is_trait_without_visibility privTraitNode = false
    ∧ shouldProcess privTraitNode = false
    ∧ codemap privTraitRoot = some ""
    ∧ is_trait_without_visibility renamedTraitNode = true
    ∧ shouldProcess renamedTraitNode = true
    ∧ codemap renamedTraitRoot = some "pub trait PrivateTraitX \x7b\x7d" := by
  decide

/-- C5 counterexample: a top-level node of unrecognized kind that does
not carry a `pub` marker does not abort processing — the file's full
output is still produced, refuting the claimed unconditional fatality. -/
theorem claim5_counterexample :
    isOtherKind unknownPrivateNode = true
    ∧ is_public unknownPrivateNode = false
    ∧ codemap cexRoot5 = some "pub struct S;" := by
  decide

/-- C5 (amended): processing aborts fatally, returning no output at all,
whenever some top-level node of unrecognized kind is classified visible
(carries a direct `pub` visibility marker). -/
theorem claim5_amended_visible_other_fatal (root : SNode)
    (h : ∃ c, c ∈ root.children ∧ isOtherKind c = true ∧ is_public c = true) :
    codemap root = none := by
  obtain ⟨c, hc, hother, hpub⟩ := h
  have hOther : ∃ k, ItemKind.fromNodeKind c.kind = ItemKind.Other k := by
    by_contra hno
    push_neg at hno
    unfold isOtherKind at hother
    cases hfk : ItemKind.fromNodeKind c.kind <;> rw [hfk] at hother
    case Other a => exact hno a hfk
    all_goals simp at hother
  obtain ⟨k, hk⟩ := hOther
  have hsp : shouldProcess c = true := by
    unfold shouldProcess
    rw [hk]
    exact hpub
  have hnone : processTopLevel (firstPass [] root.children) c = none := by
    unfold processTopLevel
    rw [hsp, hk]
    simp
  unfold codemap codemapChildren
  rw [secondPass_abort (firstPass [] root.children) root.children c hc hnone]
  rfl

theorem claim5_amended_witness : codemap badRoot5 = none :=
  claim5_amended_visible_other_fatal badRoot5
    ⟨unknownPubNode, List.Mem.head [], by decide, by decide⟩

theorem specFieldLines_isEmpty (l : List SNode) :
    (specFieldLines l).isEmpty = l.isEmpty := by
  cases l with
  | nil => rfl
  | cons c rest =>
    cases rest with
    | nil =>
      simp only [specFieldLines]
      split <;> rfl
    | cons d r2 => rfl

/-- C6: for a product type with a named-member list (no tuple
parentheses), the rendering keeps exactly the members passing the
visibility predicate, in source order, one per line, every line but the
last with a trailing comma and the last with one only if the raw member
text already ended in a comma (`specFieldLines`); zero surviving members
render as an empty-body declaration, not as an absent entry. -/
theorem claim6_struct_named_members (node nameNode bodyNode : SNode)
    (h1 : childByFieldName node "name" = some nameNode)
    (h2 : childByFieldName node "body" = some bodyNode)
    (h3 : bodyNode.children.any (fun c => c.kind == "(") = false) :
    ((bodyNode.children.filter (fun c =>
        c.kind == "field_declaration" && is_public c)).isEmpty = true →
      processStruct node = some ("pub struct " ++ (nameNode.text ++
        (typeParams node ++ " \x7b\x7d"))))
    ∧ ((bodyNode.children.filter (fun c =>
        c.kind == "field_declaration" && is_public c)).isEmpty = false →
      processStruct node = some ("pub struct " ++ (nameNode.text ++
        (typeParams node ++ (" \x7b\n" ++ (String.intercalate "\n"
          (specFieldLines (bodyNode.children.filter (fun c =>
            c.kind == "field_declaration" && is_public c))) ++ "\n\x7d")))))) := by
  have hre : renderFields (bodyNode.children.filter (fun c =>
        c.kind == "field_declaration" && is_public c)).length 0
      (bodyNode.children.filter (fun c =>
        c.kind == "field_declaration" && is_public c))
      = specFieldLines (bodyNode.children.filter (fun c =>
        c.kind == "field_declaration" && is_public c)) := by
    have h0 := renderFields_eq_spec (bodyNode.children.filter (fun c =>
      c.kind == "field_declaration" && is_public c)) 0
    rwa [Nat.zero_add] at h0
  constructor
  · intro hemp
    simp only [processStruct, h1, h2, h3, Bool.false_eq_true, if_false,
      renderFields_isEmpty, hemp, if_true]
  · intro hemp
    simp only [processStruct, h1, h2, h3, Bool.false_eq_true, if_false,
      renderFields_isEmpty, hemp, hre, specFieldLines_isEmpty]

theorem claim6_witness :
    (mixedBody.children.filter (fun c =>
      c.kind == "field_declaration" && is_public c)).isEmpty = false
    ∧ processStruct structMixed
      = some "pub struct PublicPrivatePublic \x7b\n    pub public_field: i32,\n    pub pub_field: String\n\x7d" :=
  ⟨by decide,
   (claim6_struct_named_members structMixed mixedName mixedBody rfl rfl
     rfl).2 (by decide)⟩

/-- C7: impl blocks are handled leniently: a missing implemented-type
field, a missing body field, or an empty surviving-method set each make
the block contribute nothing (never an error, never an empty rendering);
an impl node never yields a top-level output entry of its own, and when
no visible product type bears its key name (invisible declarations of
that name included) its rendering is discarded without changing the
output. -/
theorem claim7_impl_leniency (node : SNode) :
    (childByFieldName node "type" = none → processImpl node = none)
    ∧ (childByFieldName node "body" = none → processImpl node = none)
    ∧ (∀ b, childByFieldName node "body" = some b →
        (b.children.filter (fun c =>
          c.kind == "function_item" && is_public c)).isEmpty = true →
        processImpl node = none)
    ∧ (∀ implBlocks, ItemKind.fromNodeKind node.kind = ItemKind.Impl →
        processTopLevel implBlocks node = some [])
    ∧ (∀ k v, processImpl node = some (k, v) → v ≠ "")
    ∧ (∀ pre post k v, node.kind = "impl_item" →
        processImpl node = some (k, v) →
        (∀ d, d ∈ pre ++ post → shouldProcess d = true →
          ItemKind.fromNodeKind d.kind = ItemKind.Struct →
          ∀ nm, childByFieldName d "name" = some nm → nm.text ≠ k) →
        codemapChildren (pre ++ node :: post) = codemapChildren (pre ++ post)) := by
  refine ⟨?_, ?_, ?_, ?_, ?_, ?_⟩
  · intro ht
    simp [processImpl, ht]
  · intro hb
    cases hT : childByFieldName node "type" with
    | none => simp [processImpl, hT]
    | some t => simp [processImpl, hT, hb]
  · intro b hb hemp
    cases hT : childByFieldName node "type" with
    | none => simp [processImpl, hT]
    | some t =>
      have hnil : b.children.filter (fun c =>
          c.kind == "function_item" && is_public c) = [] := by
        cases hf : b.children.filter (fun c =>
            c.kind == "function_item" && is_public c) with
        | nil => rfl
        | cons x xs => rw [hf] at hemp; simp at hemp
      simp [processImpl, hT, hb, hnil]
      rfl
  · intro implBlocks hk
    exact processTopLevel_implKind implBlocks node hk
  · intro k v h
    cases hT : childByFieldName node "type" with
    | none => simp [processImpl, hT] at h
    | some t =>
      cases hB : childByFieldName node "body" with
      | none => simp [processImpl, hT, hB] at h
      | some b =>
        simp only [processImpl, hT, hB] at h
        cases hM : (b.children.filter (fun c =>
            c.kind == "function_item" && is_public c)).mapM renderImplMethod with
        | none => rw [hM] at h; simp at h
        | some ms =>
          rw [hM] at h
          by_cases hE : ms.isEmpty
          · simp [hE] at h
          · simp [hE] at h
            obtain ⟨hk1, hv⟩ := h
            subst hv
            intro h0
            have h2 := congrArg String.data h0
            rw [String.data_append] at h2
            exact absurd (List.append_eq_nil.mp h2).1 (by decide)
  · intro pre post k v hkind hp hnames
    exact codemapChildren_discard pre post node k v hkind hp hnames

theorem claim7_witness :
    processImpl implNoType = none
    ∧ processImpl implNoBody = none
    ∧ processImpl implNoPub = none
    ∧ processTopLevel [] implGhost = some []
    ∧ ghostRendering ≠ ""
    ∧ codemapChildren [structSNode, implGhost] = codemapChildren [structSNode]
    ∧ codemapChildren [privGhostStruct, implGhost]
        = codemapChildren [privGhostStruct] :=
  ⟨(claim7_impl_leniency implNoType).1 rfl,
   (claim7_impl_leniency implNoBody).2.1 rfl,
   (claim7_impl_leniency implNoPub).2.2.1 implPrivBody rfl (by decide),
   (claim7_impl_leniency implGhost).2.2.2.1 [] rfl,
   (claim7_impl_leniency implGhost).2.2.2.2.1 "Ghost" ghostRendering rfl,
   (claim7_impl_leniency implGhost).2.2.2.2.2 [structSNode] [] "Ghost"
     ghostRendering rfl rfl (by
       intro d hd hsp hk nm hnm
       cases hd with
       | head =>
         have hnm2 : some structSName = some nm := hnm
         injection hnm2 with he
         rw [← he]
         decide
       | tail _ h2 => cases h2),
   (claim7_impl_leniency implGhost).2.2.2.2.2 [privGhostStruct] [] "Ghost"
     ghostRendering rfl rfl (by
       intro d hd hsp hk nm hnm
       cases hd with
       | head => exact absurd hsp (by decide)
       | tail _ h2 => cases h2)⟩

theorem appendChain (a b c d : String) (h : (a ++ b) ++ c = d) (R : String) :
    a ++ (b ++ (c ++ R)) = d ++ R := by
  rw [← h, String.append_assoc, String.append_assoc]

/-- C8: a visible free function renders as the visibility marker, the
async qualifier exactly when the raw declaration text contains the async
function keyword (the detection §4.2 specifies), the function keyword,
name, generic fragment, parenthesized comma-joined raw parameter texts,
optional return-type fragment, and a terminator; the body never appears. -/
theorem claim8_function_rendering (node nameNode parametersNode : SNode)
    (h1 : childByFieldName node "name" = some nameNode)
    (h2 : childByFieldName node "parameters" = some parametersNode) :
    processFunction node = some ("pub "
      ++ ((if containsStr node.text "async fn" then "async " else "")
      ++ ("fn " ++ (nameNode.text ++ (typeParams node
      ++ ("(" ++ (String.intercalate ", " ((parametersNode.children.filter
            (fun p => p.kind == "parameter")).map (fun p => p.text))
          ++ (")" ++ retFragment node)) ++ ";")))))) := by
  simp only [processFunction, h1, h2]
  by_cases hA : containsStr node.text "async fn" = true
  · rw [if_pos hA, if_pos hA,
      appendChain "pub " "async " "fn " "pub async fn " (by decide)]
  · rw [if_neg hA, if_neg hA,
      appendChain "pub " "" "fn " "pub fn " (by decide)]

theorem claim8_witness :
    processFunction asyncFnNode = some "pub async fn f(x: i32) -> i32;" :=
  claim8_function_rendering asyncFnNode fnFName fnFParams rfl rfl

/-- C9: the impl index is keyed by the raw implemented-type text
(generic arguments included), while attachment looks up the bare struct
name; an impl block whose key matches no top-level declaration name is
computed but never attached — removing it leaves the output unchanged. -/
theorem claim9_impl_key_raw_type_text (node : SNode) :
    (∀ k v, processImpl node = some (k, v) →
      ∃ t, childByFieldName node "type" = some t ∧ k = t.text)
    ∧ (∀ pre post k v, node.kind = "impl_item" →
        processImpl node = some (k, v) →
        (∀ d, d ∈ pre ++ post → ∀ nm,
          childByFieldName d "name" = some nm → nm.text ≠ k) →
        codemapChildren (pre ++ node :: post) = codemapChildren (pre ++ post)) := by
  constructor
  · intro k v h
    cases hT : childByFieldName node "type" with
    | none => simp [processImpl, hT] at h
    | some t =>
      refine ⟨t, rfl, ?_⟩
      cases hB : childByFieldName node "body" with
      | none => simp [processImpl, hT, hB] at h
      | some b =>
        simp only [processImpl, hT, hB] at h
        cases hM : (b.children.filter (fun c =>
            c.kind == "function_item" && is_public c)).mapM renderImplMethod with
        | none => rw [hM] at h; simp at h
        | some ms =>
          rw [hM] at h
          by_cases hE : ms.isEmpty
          · simp [hE] at h
          · simp [hE] at h
            exact h.1.symm
  · intro pre post k v hkind hp hnames
    exact codemapChildren_discard pre post node k v hkind hp
      (fun d hd _ _ nm hnm => hnames d hd nm hnm)

theorem claim9_witness :
    processImpl genImplFoo = some ("Foo<T>", genImplRendering)
    ∧ codemapChildren [genStructFoo, genImplFoo] = codemapChildren [genStructFoo] :=
  ⟨by decide,
   (claim9_impl_key_raw_type_text genImplFoo).2 [genStructFoo] [] "Foo<T>"
     genImplRendering rfl (by decide) (by
       intro d hd nm hnm
       cases hd with
       | head =>
         have hnm2 : some fooNameNode = some nm := hnm
         injection hnm2 with he
         rw [← he]
         decide
       | tail _ h2 => cases h2)⟩

/-- C10: every rendered interface starts with the `pub` marker followed
by the trait keyword and its name, whatever visibility (if any) the
source declaration carried: the renderer inserts `pub trait` even for a
qualifier-free trait. -/
theorem claim10_trait_rendered_pub (node nameNode bodyNode : SNode)
    (h1 : childByFieldName node "name" = some nameNode)
    (h2 : childByFieldName node "body" = some bodyNode) :
    ∃ rest, processTrait node
      = some ("pub trait " ++ (nameNode.text ++ rest)) := by
  simp only [processTrait, h1, h2]
  split
  · exact ⟨" \x7b\x7d", rfl⟩
  · exact ⟨_, rfl⟩

theorem claim10_witness :
    has_visibility_modifier freeTraitNode = false
    ∧ ∃ rest, processTrait freeTraitNode
        = some ("pub trait " ++ ("Greeter" ++ rest)) :=
  ⟨by decide,
   claim10_trait_rendered_pub freeTraitNode greeterName greeterBody rfl rfl⟩
